import Mathlib

/-!
# Verification of the flatfile-sdk validation core

Shallow embedding of the field-validation and error-accumulation engine of
the `flatfile-sdk` repository (`src/demo/power_reviews.ts` and the
`utils` fragment), together with proofs about the specified properties.

Conventions of the embedding:
* JavaScript numbers that can only ever be naturals-or-NaN (the digit
  arithmetic of the UPC/EAN checksum) are modelled as `Option ℕ`, with
  `none` playing the role of `NaN`.
* General JavaScript numbers (field values for the numeric combinators)
  are modelled as `ℚ`.
* `fp-ts` `Either<NonEmptyArray<Message>, T>` is modelled as
  `ValidationResult`; the non-emptiness of the failure arm is not baked
  into the type but proved/assumed where relevant.
* A deferred check (`Lazy<ValidationResult<T>>`) is modelled by its value
  for the stateless combinators; the regex combinator, whose underlying
  `RegExp` object carries a mutable `lastIndex`, is modelled with explicit
  state passing.
-/

/-- Severity levels used by the messages of this engine (`"error"` / `"warn"`). -/
inductive Severity where
  | error : Severity
  | warn : Severity
deriving DecidableEq, Repr

/-- `FF.Message(content, level, stage)` as constructed by the validators;
the third constructor argument is always the string `"validate"` here. -/
structure Message where
  content : String
  level : Severity
  stage : String
deriving DecidableEq, Repr

/-- Modelled from the spec: `ValidationResult<T>` (the type lives in the
repository's `utils` module, absent from `src/`): a tagged union
`Ok(value)` / `Fail(issues)`, embedding `Either<NonEmptyArray<Message>, T>`. -/
inductive ValidationResult (α : Type) where
  | ok : α → ValidationResult α
  | fail : List Message → ValidationResult α
deriving DecidableEq, Repr

/-- The issues carried by a result (`[]` on the success arm). -/
def issuesOf {α : Type} : ValidationResult α → List Message
  | .ok _ => []
  | .fail is => is

/-- Whether a result is on the failure arm. -/
def isFail {α : Type} : ValidationResult α → Bool
  | .ok _ => false
  | .fail _ => true

/-- Ordered concatenation of all issues of a list of results. -/
def allIssues {α : Type} (rs : List (ValidationResult α)) : List Message :=
  (rs.map issuesOf).flatten

/-- `r` is `Ok`, or `Fail` with exactly one issue of severity `sev`. -/
def failsSingleton {α : Type} (sev : Severity) (r : ValidationResult α) : Prop :=
  match r with
  | .ok _ => True
  | .fail is => ∃ m, is = [m] ∧ m.level = sev

/- ### Validator combinators (`power_reviews.ts`) -/

/-- `validateMaxLength(len)(value)()`. -/
def validateMaxLength (len : ℕ) (value : String) : ValidationResult String :=
  if value.length ≤ len then .ok value
  else .fail [⟨s!"Cannot be more than {len} characters.", .warn, "validate"⟩]

/-- JavaScript truncation toward zero on rationals (`Math.trunc` / the
integral part used by the `%` remainder). -/
def jsTrunc (v : ℚ) : ℤ :=
  if 0 ≤ v then ⌊v⌋ else ⌈v⌉

/-- `validateWholeNumber(value)()`: JavaScript `value % 1 === 0` holds
exactly when `value` equals its own truncation. -/
def validateWholeNumber (value : ℚ) : ValidationResult ℚ :=
  if value - jsTrunc value = 0 then .ok value
  else .fail [⟨"Whole numbers only.", .error, "validate"⟩]

/-- `validateRangeInclusive(min, max)(value)()`. -/
def validateRangeInclusive (min max : ℚ) (value : ℚ) : ValidationResult ℚ :=
  if min ≤ value ∧ value ≤ max then .ok value
  else .fail [⟨s!"Value must be between {min.num} and {max.num}.", .error, "validate"⟩]

/-- `validateRegex(regex)(value)` produces a thunk closing over the shared
mutable `RegExp` object; invoking the thunk runs `regex.test(value)`,
which both returns a Boolean and updates the state (`lastIndex` for a
global regex).  The regex is modelled by its `test` transition function. -/
def validateRegex {σ : Type} (test : String → σ → Bool × σ) (value : String)
    (st : σ) : ValidationResult String × σ :=
  let p := test value st
  (if p.1 then .ok value
   else .fail [⟨"Value does not meet required format.", .warn, "validate"⟩], p.2)

/-- The `test` transition of the global regex literal `/[^ ]+/g`:
starting from `lastIndex`, search for the first character that is not a
space; on a match, advance `lastIndex` past the maximal run of non-space
characters and answer `true`; on no match, reset `lastIndex` to `0` and
answer `false`. -/
def regexTestNoSpaceG (value : String) (lastIndex : ℕ) : Bool × ℕ :=
  match (value.data.drop lastIndex).findIdx? (fun c => c ≠ ' ') with
  | none => (false, 0)
  | some j =>
      let start := lastIndex + j
      let len := ((value.data.drop start).takeWhile (fun c => c ≠ ' ')).length
      (true, start + len)

/-- `validatePositive(value)()`. -/
def validatePositive (value : ℚ) : ValidationResult ℚ :=
  if (1 : ℚ)/100 ≤ value then .ok value
  else .fail [⟨"Value must be at least 1 cent.", .error, "validate"⟩]

/- ### The UPC/EAN validator (`validateUpcOrEan`) -/

/-- JavaScript `Number` applied to a one-character string: a digit yields
its value, a whitespace character yields `0`, anything else yields `NaN`. -/
def jsNumber (c : Char) : Option ℕ :=
  if c.isDigit then some (c.toNat - 48)
  else if c = ' ' ∨ c = '\t' ∨ c = '\n' ∨ c = '\r' then some 0
  else none

/-- NaN-propagating addition (`Num.MonoidSum.concat`). -/
def jsAdd : Option ℕ → Option ℕ → Option ℕ
  | some a, some b => some (a + b)
  | _, _ => none

/-- NaN-propagating multiplication by a literal (`x * 3`). -/
def jsMulNat : Option ℕ → ℕ → Option ℕ
  | some a, k => some (a * k)
  | none, _ => none

/-- NaN-propagating `x % 10` (the operand is always non-negative here). -/
def jsMod10 : Option ℕ → Option ℕ
  | some a => some (a % 10)
  | none => none

/-- NaN-propagating `10 - x`; the operand is a `% 10` result, so it is at
most `9` and the natural subtraction agrees with the JavaScript one. -/
def jsSubFrom10 : Option ℕ → Option ℕ
  | some a => some (10 - a)
  | none => none

/-- JavaScript `!==` on naturals-or-NaN: `NaN` is unequal to everything. -/
def jsNeq : Option ℕ → Option ℕ → Bool
  | some a, some b => a != b
  | _, _ => true

/-- `/\d{12,13}/g.test(value)` (the literal is rebuilt on every call, so
`lastIndex` is always `0`): as a non-anchored existence test this holds
exactly when some position starts a run of at least 12 ASCII digits. -/
def hasTwelveDigitRun (l : List Char) : Bool :=
  l.tails.any fun t => decide (12 ≤ t.length) && (t.take 12).all Char.isDigit

/-- `fp-ts` `RA.partitionWithIndex`, indices starting at `i`:
`left` collects the elements on which the predicate is `false`,
`right` those on which it is `true`, each in input order. -/
def partitionWithIndexAux {α : Type} (p : ℕ → α → Bool) (i : ℕ) :
    List α → List α × List α
  | [] => ([], [])
  | a :: rest =>
      let pr := partitionWithIndexAux p (i + 1) rest
      if p i a then (pr.1, a :: pr.2) else (a :: pr.1, pr.2)

/-- `fp-ts` `RA.partitionWithIndex` (indices from `0`). -/
def partitionWithIndex {α : Type} (p : ℕ → α → Bool) (l : List α) :
    List α × List α :=
  partitionWithIndexAux p 0 l

/-- The failure message of the regex gate of `validateUpcOrEan`. -/
def mustBe12or13Message : Message :=
  ⟨"Must be 12 or 13 digits.", .error, "validate"⟩

/-- The failure message of the checksum test of `validateUpcOrEan`. -/
def invalidUpcMessage : Message :=
  ⟨"Invalid UPC or EAN.", .error, "validate"⟩

/-- The `E.chain` stage of `validateUpcOrEan`: `allDigits` via `Number` on
each character, `checksumDigit` via `reverse`/`head`/`getOrElse 0`, the
index-parity partition — whose `left` (predicate-false, i.e. odd-indexed)
component the source names `evenIndices` and whose `right` component it
names `oddIndices` — the two monoidal sums, and the final
`10 - remainder !== checksumDigit` test. -/
def upcChecksumStep (upcOrEan : String) : ValidationResult String :=
  let allDigits : List (Option ℕ) := upcOrEan.data.map jsNumber
  let checksumDigit : Option ℕ := (allDigits.reverse.head?).getD (some 0)
  let p := partitionWithIndex (fun idx _ => idx % 2 == 0) allDigits.dropLast
  let evenIndices := p.1
  let oddIndices := p.2
  let sumEvens := evenIndices.foldl jsAdd (some 0)
  let sumOdds := oddIndices.foldl jsAdd (some 0)
  let remainder := jsMod10 (jsAdd (jsMulNat sumEvens 3) sumOdds)
  if jsNeq (jsSubFrom10 remainder) checksumDigit
  then ValidationResult.fail [invalidUpcMessage]
  else ValidationResult.ok upcOrEan

/-- `validateUpcOrEan(value)()`, stage for stage: the non-anchored regex
gate (`E.fromPredicate`), the 12→13 left-pad (`E.map`), the checksum test
(`E.chain`); `E.mapLeft` wraps whichever failure string arose into one
error-severity message. -/
def validateUpcOrEan (value : String) : ValidationResult String :=
  if hasTwelveDigitRun value.data then
    upcChecksumStep (if value.length = 12 then "0" ++ value else value)
  else ValidationResult.fail [mustBe12or13Message]

/-- The digit values of a string of digit characters. -/
def digitsOf (s : String) : List ℕ :=
  s.data.map fun c => c.toNat - 48

/- ### Specification-side check-digit definitions -/

/-- Sum of the entries at alternating positions: `true` counts the current
position, `false` skips it. -/
def sumAlt : Bool → List ℕ → ℕ
  | _, [] => 0
  | true, a :: rest => a + sumAlt false rest
  | false, _ :: rest => sumAlt true rest

/-- Sum of the entries at even 0-indexed positions. -/
def sumAtEven (l : List ℕ) : ℕ := sumAlt true l

/-- Sum of the entries at odd 0-indexed positions. -/
def sumAtOdd (l : List ℕ) : ℕ := sumAlt false l

/-- Splitting a list by position parity (`true` ↦ the current position
counts as even): the first component collects the odd positions, the
second the even ones, mirroring the `left`/`right` split of
`partitionWithIndex` with the parity predicate. -/
def altSplit {α : Type} : Bool → List α → List α × List α
  | _, [] => ([], [])
  | true, a :: rest => ((altSplit false rest).1, a :: (altSplit false rest).2)
  | false, a :: rest => (a :: (altSplit true rest).1, (altSplit true rest).2)

/-- The expected check digit exactly as the spec's algorithm section words
it, applied to the first 12 digits of the (possibly padded) 13-digit code:
`remainder = (3 × sum_even + sum_odd) mod 10`, expected check digit
`(10 − remainder) mod 10`. -/
def specExpectedCheckDigit (ds : List ℕ) : ℕ :=
  (10 - (3 * sumAtEven ds + sumAtOdd ds) % 10) % 10

/-- The standard GTIN-13 check digit of the first 12 digits of a 13-digit
code: weight 3 on the digits at odd 0-indexed positions (the 2nd, 4th, …
digits), weight 1 on the even ones. -/
def gtin13CheckDigit (ds : List ℕ) : ℕ :=
  (10 - (3 * sumAtOdd ds + sumAtEven ds) % 10) % 10

/-- The standard UPC-A check digit of the first 11 digits of a 12-digit
code: weight 3 on the digits at even 0-indexed positions. -/
def upcACheckDigit (ds : List ℕ) : ℕ :=
  (10 - (3 * sumAtEven ds + sumAtOdd ds) % 10) % 10

/- ### The validation runner and the applicative sequencer -/

/-- Modelled from the spec: `runValidations` (exported by the repository's
`utils` module, whose implementation is not under `src/`; only this
fragment's `fold`/`sequenceValidationT` and the call sites are).  Per the
spec's runner contract it is `Ok` only if every input is `Ok` (signalling
success), and otherwise `Fail` with the concatenation, in input order, of
every issue of every failing input. -/
def runValidations {α : Type} (rs : List (ValidationResult α)) :
    ValidationResult Unit :=
  match allIssues rs with
  | [] => .ok ()
  | is => .fail is

/-- `E.getApplicativeValidation(NEA.getSemigroup<Message>()).ap`: both
failures concatenate, a lone failure is kept, two successes apply. -/
def validationAp {α β : Type} (mf : ValidationResult (α → β))
    (ma : ValidationResult α) : ValidationResult β :=
  match mf, ma with
  | .fail e1, .fail e2 => .fail (e1 ++ e2)
  | .fail e1, .ok _ => .fail e1
  | .ok _, .fail e2 => .fail e2
  | .ok f, .ok a => .ok (f a)

/-- `Ap.sequenceT(E.getApplicativeValidation(NEA.getSemigroup<Message>()))`
applied to a list of results: the left-to-right applicative traversal with
`validationAp`. -/
def sequenceValidationT {α : Type} :
    List (ValidationResult α) → ValidationResult (List α)
  | [] => .ok []
  | r :: rs =>
      validationAp (validationAp (.ok fun a as => a :: as) r)
        (sequenceValidationT rs)

/- ### Records and record-level rules -/

/-- One (field-name, message, severity) annotation on a record's issue list. -/
structure Annotation where
  field : String
  message : String
  level : Severity
deriving DecidableEq, Repr

/-- Modelled from the spec: the Record abstraction of `@flatfile/hooks`
(not under `src/`): a bag of field values (`none` models a null/undefined
value) with an accumulating issue list, offering `get` and a mutating
issue append. -/
structure FlatfileRecord where
  fields : List (String × Option String)
  issues : List Annotation
deriving DecidableEq, Repr

/-- `record.get(key)`: the stored value, null/undefined (`none`) when the
key is absent or holds a nil value. -/
def FlatfileRecord.get (r : FlatfileRecord) (key : String) : Option String :=
  (r.fields.lookup key).getD none

/-- `record.addError(field, message)`: appends one error-severity
annotation to the record's issue list. -/
def FlatfileRecord.addError (r : FlatfileRecord) (f msg : String) :
    FlatfileRecord :=
  { r with issues := r.issues ++ [⟨f, msg, .error⟩] }

/-- Modelled from the spec: `G.isNil` (the `typeGuards` module is not
under `src/`): true exactly on null/undefined values. -/
def isNil (v : Option String) : Bool := v.isNone

/-- The `requiredFields` record hook: adds one required-field error on
`page_id` when that field is nil, and returns the record. -/
def requiredFields (r : FlatfileRecord) : FlatfileRecord :=
  if isNil (r.get "page_id") then r.addError "page_id" "Field is required."
  else r

/-- The result list of `fns.map((f) => f(x))` where `x` is one shared
mutable record: each call sees the mutations of its predecessors, and the
list collects the successive return values. -/
def foldList (fns : List (FlatfileRecord → FlatfileRecord))
    (x : FlatfileRecord) : List FlatfileRecord :=
  match fns with
  | [] => []
  | f :: rest =>
      let x1 := f x
      x1 :: foldList rest x1

/-- A JavaScript value that is either a record or an array of records;
lets the dynamically-typed return value of `fold` be compared with a
record. -/
inductive JsValue where
  | record : FlatfileRecord → JsValue
  | array : List FlatfileRecord → JsValue
deriving DecidableEq, Repr

/-- `fold(...fns)(x) = fns.map((f) => f(x))`: the returned value is the
array of the rules' return values. -/
def fold (fns : List (FlatfileRecord → FlatfileRecord))
    (x : FlatfileRecord) : JsValue :=
  .array (foldList fns x)

/-- A concrete record whose `page_id` is null. -/
def recNilPage : FlatfileRecord := ⟨[("page_id", none)], []⟩

/-- A concrete record whose `page_id` is present. -/
def recSomePage : FlatfileRecord := ⟨[("page_id", some "p-1")], []⟩


/- ### Helper lemmas -/

theorem dropLast_map {α β : Type} (f : α → β) (l : List α) :
    (l.map f).dropLast = l.dropLast.map f := by
  induction l with
  | nil => rfl
  | cons a rest ih =>
      cases rest with
      | nil => rfl
      | cons b t => simp [List.dropLast, ih]

theorem all_take {α : Type} (p : α → Bool) (l : List α) (n : ℕ)
    (h : l.all p = true) : (l.take n).all p = true := by
  simp only [List.all_eq_true] at *
  intro x hx
  exact h x (List.mem_of_mem_take hx)

theorem hasRun_of_digits (l : List Char) (hlen : 12 ≤ l.length)
    (hd : l.all Char.isDigit = true) : hasTwelveDigitRun l = true := by
  have hmem : l ∈ l.tails := by
    cases l with
    | nil => simp
    | cons a t => simp [List.tails]
  refine List.any_eq_true.mpr ⟨l, hmem, ?_⟩
  simp only [Bool.and_eq_true, decide_eq_true_eq]
  exact ⟨hlen, all_take _ _ _ hd⟩

theorem map_jsNumber_of_digits (l : List Char) (hd : l.all Char.isDigit = true) :
    l.map jsNumber = l.map fun c => some (c.toNat - 48) := by
  simp only [List.all_eq_true] at hd
  refine List.map_congr_left fun c hc => ?_
  simp [jsNumber, hd c hc]

theorem partitionAux_altSplit {α : Type} (l : List α) (i : ℕ) :
    partitionWithIndexAux (fun idx _ => idx % 2 == 0) i l
      = altSplit (i % 2 == 0) l := by
  induction l generalizing i with
  | nil => cases hb : (i % 2 == 0) <;> rfl
  | cons a rest ih =>
      have hpar : ((i + 1) % 2 == 0) = !(i % 2 == 0) := by
        rcases Nat.mod_two_eq_zero_or_one i with h | h <;> simp [Nat.add_mod, h]
      rcases Nat.mod_two_eq_zero_or_one i with h | h <;>
        simp [partitionWithIndexAux, altSplit, ih, hpar, h]

theorem altSplit_map {α β : Type} (f : α → β) (b : Bool) (l : List α) :
    altSplit b (l.map f)
      = ((altSplit b l).1.map f, (altSplit b l).2.map f) := by
  induction l generalizing b with
  | nil => cases b <;> rfl
  | cons a rest ih => cases b <;> simp [altSplit, ih]

theorem altSplit_sums (b : Bool) (l : List ℕ) :
    (altSplit b l).1.sum = sumAlt (!b) l ∧ (altSplit b l).2.sum = sumAlt b l := by
  induction l generalizing b with
  | nil => cases b <;> simp [altSplit, sumAlt]
  | cons a rest ih => cases b <;> simp [altSplit, sumAlt, (ih true), (ih false)]

theorem foldl_jsAdd (l : List ℕ) (a : ℕ) :
    (l.map some).foldl jsAdd (some a) = some (a + l.sum) := by
  induction l generalizing a with
  | nil => simp
  | cons x rest ih => simp [jsAdd, ih, Nat.add_assoc]

theorem upcChecksumStep_digits (t : String) (h13 : t.length = 13)
    (hd : t.data.all Char.isDigit = true) :
    upcChecksumStep t =
      if 10 - (sumAtOdd ((digitsOf t).dropLast) * 3
            + sumAtEven ((digitsOf t).dropLast)) % 10
          = (digitsOf t).getLast?.getD 0
      then .ok t else .fail [invalidUpcMessage] := by
  have hdata : t.data.length = 13 := h13
  have hds_len : (digitsOf t).length = 13 := by simp [digitsOf, hdata]
  obtain ⟨y, hy⟩ : ∃ y, (digitsOf t).getLast? = some y := by
    cases hl : (digitsOf t).getLast? with
    | none =>
        rw [List.getLast?_eq_none_iff] at hl
        rw [hl] at hds_len
        simp at hds_len
    | some y => exact ⟨y, rfl⟩
  have hmap : t.data.map jsNumber = (digitsOf t).map some := by
    rw [map_jsNumber_of_digits _ hd, digitsOf, List.map_map]
    rfl
  rw [upcChecksumStep]
  simp only [hmap, hy]
  rw [← List.map_reverse, List.head?_map, List.head?_reverse, hy,
    dropLast_map, partitionWithIndex, partitionAux_altSplit]
  simp only [Nat.zero_mod, beq_self_eq_true, altSplit_map, foldl_jsAdd,
    Nat.zero_add, (altSplit_sums true ((digitsOf t).dropLast)).1,
    (altSplit_sums true ((digitsOf t).dropLast)).2]
  simp only [jsMulNat, jsAdd, jsMod10, jsSubFrom10, jsNeq, Option.map_some,
    Option.getD_some]
  by_cases hcase : 10 - (sumAlt false ((digitsOf t).dropLast) * 3
      + sumAlt true ((digitsOf t).dropLast)) % 10 = y
  · simp [sumAtOdd, sumAtEven, hcase]
  · simp [sumAtOdd, sumAtEven, hcase]

theorem issuesOf_eq_nil {α : Type} (r : ValidationResult α)
    (h : isFail r = false) : issuesOf r = [] := by
  cases r with
  | ok a => rfl
  | fail is => simp [isFail] at h

theorem allIssues_cons {α : Type} (r : ValidationResult α)
    (rs : List (ValidationResult α)) :
    allIssues (r :: rs) = issuesOf r ++ allIssues rs := by
  simp [allIssues]

theorem allIssues_eq_filter {α : Type} (rs : List (ValidationResult α)) :
    allIssues rs = ((rs.filter fun r => isFail r).map issuesOf).flatten := by
  induction rs with
  | nil => rfl
  | cons r rest ih =>
      cases hf : isFail r with
      | false =>
          simp [allIssues_cons, List.filter_cons, hf, ih, issuesOf_eq_nil r hf]
      | true => simp [allIssues_cons, List.filter_cons, hf, ih]

theorem allIssues_of_all_ok {α : Type} (rs : List (ValidationResult α))
    (h : ∀ r ∈ rs, isFail r = false) : allIssues rs = [] := by
  induction rs with
  | nil => rfl
  | cons r rest ih =>
      rw [allIssues_cons, issuesOf_eq_nil r (h r (by simp)),
        ih fun x hx => h x (by simp [hx])]
      rfl

theorem allIssues_ne_nil {α : Type} (rs : List (ValidationResult α))
    (hne : ∀ r ∈ rs, isFail r = true → issuesOf r ≠ [])
    (hex : ∃ r ∈ rs, isFail r = true) : allIssues rs ≠ [] := by
  induction rs with
  | nil => simp at hex
  | cons r rest ih =>
      rw [allIssues_cons]
      cases hf : isFail r with
      | true =>
          have h1 : issuesOf r ≠ [] := hne r (by simp) hf
          intro hcontra
          exact h1 (List.append_eq_nil.mp hcontra).1
      | false =>
          obtain ⟨x, hx, hfx⟩ := hex
          rcases List.mem_cons.mp hx with h | h
          · rw [h] at hfx; rw [hfx] at hf; exact absurd hf (by simp)
          · rw [issuesOf_eq_nil r hf]
            simpa using ih (fun x' hx' hf' => hne x' (by simp [hx']) hf') ⟨x, h, hfx⟩

theorem flatten_of_singletons {α : Type} (l : List (ValidationResult α))
    (h : ∀ r ∈ l, (issuesOf r).length = 1) :
    ((l.map issuesOf).flatten).length = l.length := by
  induction l with
  | nil => rfl
  | cons r rest ih =>
      simp only [List.map_cons, List.flatten_cons, List.length_append,
        List.length_cons, h r (by simp), ih fun x hx => h x (by simp [hx])]
      omega

theorem sequenceValidationT_cases {α : Type} (rs : List (ValidationResult α)) :
    ((∃ vs, sequenceValidationT rs = .ok vs) ∧ ∀ r ∈ rs, isFail r = false)
    ∨ sequenceValidationT rs = .fail (allIssues rs) := by
  induction rs with
  | nil => exact Or.inl ⟨⟨[], rfl⟩, by simp⟩
  | cons r rest ih =>
      cases r with
      | ok a =>
          rcases ih with ⟨⟨vs, hv⟩, hall⟩ | hf
          · refine Or.inl ⟨⟨a :: vs, ?_⟩, ?_⟩
            · simp [sequenceValidationT, validationAp, hv]
            · intro x hx
              rcases List.mem_cons.mp hx with h | h
              · rw [h]; rfl
              · exact hall x h
          · refine Or.inr ?_
            simp [sequenceValidationT, validationAp, hf, allIssues_cons, issuesOf]
      | fail e =>
          refine Or.inr ?_
          rcases ih with ⟨⟨vs, hv⟩, hall⟩ | hf
          · simp [sequenceValidationT, validationAp, hv, allIssues_cons,
              issuesOf, allIssues_of_all_ok rest hall]
          · simp [sequenceValidationT, validationAp, hf, allIssues_cons, issuesOf]

theorem upcChecksumStep_shape (t : String) :
    upcChecksumStep t = .ok t ∨ upcChecksumStep t = .fail [invalidUpcMessage] := by
  simp only [upcChecksumStep]
  split
  · exact Or.inr rfl
  · exact Or.inl rfl

/- ### Claim theorems -/

/-- C1, counterexample: the validator does not fail exactly when the
spec's expected check digit differs from the last digit, in either
direction.  On "4006381333931" (13 digits) the spec's expected check
digit (weight 3 on the even-indexed sum) differs from the actual last
digit, yet the validator succeeds; on "4006381333900" the spec's
expected check digit equals the actual last digit (the two weightings
coincide there and `(10 − 0) mod 10 = 0`), yet the validator fails. -/
theorem upc_spec_weighting_counterexample :
    (specExpectedCheckDigit ((digitsOf "4006381333931").dropLast)
        ≠ (digitsOf "4006381333931").getLast?.getD 0
      ∧ validateUpcOrEan "4006381333931" = .ok "4006381333931")
    ∧ (specExpectedCheckDigit ((digitsOf "4006381333900").dropLast)
        = (digitsOf "4006381333900").getLast?.getD 0
      ∧ validateUpcOrEan "4006381333900" = .fail [invalidUpcMessage]) := by
  exact ⟨⟨by decide, rfl⟩, ⟨by decide, rfl⟩⟩

/-- C1, amended: on a 13-digit input the validator computes
`remainder = (sum_odd × 3 + sum_even) mod 10` — weight 3 on the *odd*
0-indexed positions of the first 12 digits, since the source binds the
`left` (predicate-false) component of `partitionWithIndex` to
`evenIndices` — and fails exactly when `10 − remainder` (not reduced
mod 10) differs from the actual last digit. -/
theorem upc_check_matches_code_weighting (s : String) (h13 : s.length = 13)
    (hd : s.data.all Char.isDigit = true) :
    (validateUpcOrEan s = .ok s ↔
        10 - (sumAtOdd ((digitsOf s).dropLast) * 3
            + sumAtEven ((digitsOf s).dropLast)) % 10
          = (digitsOf s).getLast?.getD 0)
    ∧ (10 - (sumAtOdd ((digitsOf s).dropLast) * 3
            + sumAtEven ((digitsOf s).dropLast)) % 10
          ≠ (digitsOf s).getLast?.getD 0 →
        validateUpcOrEan s = .fail [invalidUpcMessage]) := by
  have hlen : s.data.length = 13 := h13
  have hgate : hasTwelveDigitRun s.data = true :=
    hasRun_of_digits _ (by omega) hd
  have hne12 : ¬ s.length = 12 := by omega
  have hv : validateUpcOrEan s = upcChecksumStep s := by
    rw [validateUpcOrEan, if_pos hgate, if_neg hne12]
  rw [hv, upcChecksumStep_digits s h13 hd]
  by_cases hc : 10 - (sumAtOdd ((digitsOf s).dropLast) * 3
      + sumAtEven ((digitsOf s).dropLast)) % 10
      = (digitsOf s).getLast?.getD 0
  · rw [if_pos hc]
    exact ⟨⟨fun _ => hc, fun _ => rfl⟩, fun hcon => absurd hc hcon⟩
  · rw [if_neg hc]
    exact ⟨⟨fun h => absurd h (by simp), fun h => absurd h hc⟩, fun _ => rfl⟩

/-- C1, witness for the amended theorem at the 13-digit input
"4006381333931". -/
theorem upc_check_matches_code_weighting_witness :
    validateUpcOrEan "4006381333931" = .ok "4006381333931" :=
  (upc_check_matches_code_weighting "4006381333931" (by decide)
      (by decide)).1.mpr (by decide)

/-- C2: "4006381333900" is a valid GTIN-13 code (its last digit 0 equals
the GTIN-13 check digit of its first 12 digits), yet the validator
rejects it, because the source compares `10 - remainder` — which is 10,
never 0 — against the check digit instead of `(10 - remainder) % 10`. -/
theorem upc_valid_gtin13_check_zero_rejected :
    gtin13CheckDigit ((digitsOf "4006381333900").dropLast) = 0
    ∧ (digitsOf "4006381333900").getLast?.getD 0 = 0
    ∧ validateUpcOrEan "4006381333900" = .fail [invalidUpcMessage] := by
  refine ⟨by decide, by decide, rfl⟩

/-- C3: "100000000090" is a valid 12-digit UPC (its last digit 0 equals
the UPC-A check digit of its first 11 digits), yet the validator rejects
it — the same missing `mod 10` as in the 13-digit case — while the
round-trip does hold on the spec's example "036000291452", whose check
digit is nonzero. -/
theorem upc_valid_upc_check_zero_rejected :
    upcACheckDigit ((digitsOf "100000000090").dropLast) = 0
    ∧ (digitsOf "100000000090").getLast?.getD 0 = 0
    ∧ validateUpcOrEan "100000000090" = .fail [invalidUpcMessage]
    ∧ validateUpcOrEan "036000291452" = .ok "0036000291452" := by
  refine ⟨by decide, by decide, rfl, rfl⟩

/-- C4, counterexample: the all-digit 14-character input "00000000000055"
passes the non-anchored gate and the checksum test, so the validator
succeeds with a value that is not a 13-digit string. -/
theorem upc_success_value_not_13_digits :
    validateUpcOrEan "00000000000055" = .ok "00000000000055"
    ∧ ("00000000000055" : String).length ≠ 13 := by
  exact ⟨rfl, by decide⟩

/-- C4, amended: the validator fails with the malformed-input error
exactly on inputs containing no run of 12 consecutive digits, and on
success the value is the input itself, left-padded with "0" exactly when
the input has length 12 — a 13-digit string only when the input was a
bare 12- or 13-digit code. -/
theorem upc_gate_and_success_shape (s : String) :
    (validateUpcOrEan s = .fail [mustBe12or13Message]
        ↔ hasTwelveDigitRun s.data = false)
    ∧ ∀ v, validateUpcOrEan s = .ok v →
        v = if s.length = 12 then "0" ++ s else s := by
  by_cases hg : hasTwelveDigitRun s.data
  · have hv : validateUpcOrEan s
        = upcChecksumStep (if s.length = 12 then "0" ++ s else s) := by
      rw [validateUpcOrEan, if_pos hg]
    constructor
    · rw [hv]
      constructor
      · intro h
        rcases upcChecksumStep_shape (if s.length = 12 then "0" ++ s else s)
          with hs | hs <;> rw [hs] at h
        · exact absurd h (by simp)
        · exact absurd h (by simp [invalidUpcMessage, mustBe12or13Message])
      · intro h
        rw [hg] at h
        exact absurd h (by simp)
    · intro v h
      rw [hv] at h
      rcases upcChecksumStep_shape (if s.length = 12 then "0" ++ s else s)
        with hs | hs <;> rw [hs] at h
      · cases h
        rfl
      · exact absurd h (by simp)
  · have hv : validateUpcOrEan s = .fail [mustBe12or13Message] := by
      rw [validateUpcOrEan, if_neg hg]
    constructor
    · simp [hv, Bool.eq_false_iff, hg]
    · intro v h
      rw [hv] at h
      exact absurd h (by simp)

/-- C4, witness for the amended theorem at the 12-digit input
"036000291452". -/
theorem upc_gate_and_success_shape_witness :
    ("0036000291452" : String)
      = if ("036000291452" : String).length = 12
        then "0" ++ "036000291452" else "036000291452" :=
  (upc_gate_and_success_shape "036000291452").2 "0036000291452" rfl

/-- C5: accumulation law of the runner — with every failing input carrying
a non-empty issue list (the `NonEmptyArray` invariant of the source type),
if any input fails, `runValidations` fails with the concatenation, in
input order, of the issues of exactly the failing inputs (so exactly k
issues when each of the k failing inputs carries one issue), and if all
inputs are Ok it returns Ok.  No input is skipped after a failure. -/
theorem runValidations_accumulation {α : Type} (rs : List (ValidationResult α))
    (hne : ∀ r ∈ rs, isFail r = true → issuesOf r ≠ []) :
    ((∃ r ∈ rs, isFail r = true) →
        runValidations rs = .fail (allIssues rs)
        ∧ allIssues rs = ((rs.filter fun r => isFail r).map issuesOf).flatten
        ∧ ((∀ r ∈ rs, isFail r = true → (issuesOf r).length = 1) →
            (allIssues rs).length = (rs.filter fun r => isFail r).length))
    ∧ ((∀ r ∈ rs, isFail r = false) → runValidations rs = .ok ()) := by
  constructor
  · intro hex
    have hnn : allIssues rs ≠ [] := allIssues_ne_nil rs hne hex
    refine ⟨?_, allIssues_eq_filter rs, ?_⟩
    · rw [runValidations]
      cases hal : allIssues rs with
      | nil => exact absurd hal hnn
      | cons a l => rfl
    · intro hone
      rw [allIssues_eq_filter rs]
      exact flatten_of_singletons _ fun r hr =>
        hone r (List.mem_of_mem_filter hr) (List.of_mem_filter hr)
  · intro hall
    rw [runValidations, allIssues_of_all_ok rs hall]

/-- C5, witness: one Ok and two singleton failures accumulate to a
failure carrying both issues in order. -/
theorem runValidations_accumulation_witness :
    runValidations [ValidationResult.ok (0 : ℕ), .fail [mustBe12or13Message],
        .fail [invalidUpcMessage]]
      = .fail [mustBe12or13Message, invalidUpcMessage] := by
  have h := (runValidations_accumulation
      [ValidationResult.ok (0 : ℕ), .fail [mustBe12or13Message],
        .fail [invalidUpcMessage]] (by decide)).1
      ⟨.fail [mustBe12or13Message], by decide, by decide⟩
  rw [h.1]
  rfl

/-- C6: failure union of the applicative sequencer — the concrete
`[Ok, Fail([a]), Fail([b,c])]` instance yields `Fail([a,b,c])`, an
all-Ok list yields Ok of the values in order, and whenever any input
fails the sequencer fails with the ordered concatenation of every issue
of every failing input (no sibling failure is suppressed). -/
theorem sequenceValidationT_failure_union :
    (∀ (x : ℕ) (a b c : Message),
        sequenceValidationT [ValidationResult.ok x, .fail [a], .fail [b, c]]
          = .fail [a, b, c])
    ∧ (∀ (α : Type) (vs : List α), sequenceValidationT (vs.map .ok) = .ok vs)
    ∧ (∀ (α : Type) (rs : List (ValidationResult α)),
        (∃ r ∈ rs, isFail r = true) →
          sequenceValidationT rs = .fail (allIssues rs)) := by
  refine ⟨?_, ?_, ?_⟩
  · intro x a b c
    rfl
  · intro α vs
    induction vs with
    | nil => rfl
    | cons v rest ih => simp [sequenceValidationT, validationAp, ih]
  · intro α rs hex
    rcases sequenceValidationT_cases rs with ⟨⟨vs, hv⟩, hall⟩ | hf
    · obtain ⟨r, hr, hfr⟩ := hex
      rw [hall r hr] at hfr
      exact absurd hfr (by simp)
    · exact hf

/-- C6, witness: the general failure-union clause at a concrete list. -/
theorem sequenceValidationT_failure_union_witness :
    sequenceValidationT [ValidationResult.ok (7 : ℕ), .fail [invalidUpcMessage]]
      = .fail [invalidUpcMessage] := by
  have h := sequenceValidationT_failure_union.2.2 ℕ
      [ValidationResult.ok (7 : ℕ), .fail [invalidUpcMessage]]
      ⟨.fail [invalidUpcMessage], by decide, by decide⟩
  rw [h]
  rfl

/-- C7, counterexample: `fold` does not return the mutated record itself —
on a concrete record and the single rule `requiredFields` it returns the
array of the rules' return values, which is a different value from the
mutated record. -/
theorem fold_result_counterexample :
    fold [requiredFields] recNilPage
      ≠ JsValue.record (requiredFields recNilPage) := by
  decide

/-- C7, amended: `fold(...fns)(r)` applies each rule in the listed order —
each rule seeing the record as mutated by its predecessors, the i-th
collected value being the record after the first i+1 rules — and returns
the array of the rules' return values rather than the record itself
(callers observe the mutations only through the shared record). -/
theorem fold_applies_rules_in_order
    (fns : List (FlatfileRecord → FlatfileRecord)) (r : FlatfileRecord) :
    fold fns r = JsValue.array (foldList fns r)
    ∧ (foldList fns r).length = fns.length
    ∧ ∀ i : ℕ, (foldList fns r).get? i =
        if i < fns.length
        then some ((fns.take (i + 1)).foldl (fun x f => f x) r)
        else none := by
  refine ⟨rfl, ?_, ?_⟩
  · induction fns generalizing r with
    | nil => rfl
    | cons f rest ih => simp [foldList, ih]
  · induction fns generalizing r with
    | nil => intro i; simp [foldList]
    | cons f rest ih =>
        intro i
        cases i with
        | zero => simp [foldList]
        | succ j =>
            have h := ih (f r) j
            simp only [foldList, List.get?_cons_succ, h, List.length_cons,
              List.take_succ_cons, List.foldl_cons, Nat.add_lt_add_iff_right]

/-- C8: the no-spaces rule's deferred check is built over the global-flag
regex `/[^ ]+/g`, whose `test` mutates `lastIndex`; invoking the same
thunk twice on the value "abc" yields Ok the first time and Fail the
second time, so validator invocation is not idempotent. -/
theorem globalRegexThunk_not_idempotent :
    (validateRegex regexTestNoSpaceG "abc" 0).1 = .ok "abc"
    ∧ (validateRegex regexTestNoSpaceG "abc"
          (validateRegex regexTestNoSpaceG "abc" 0).2).1
        = .fail [⟨"Value does not meet required format.", .warn, "validate"⟩] := by
  decide

/-- C9: the required-field rule appends exactly one error-severity
annotation naming `page_id` when that field is null/undefined, leaving
the field values untouched, and is a no-op on the record otherwise. -/
theorem requiredFields_page_id (r : FlatfileRecord) :
    (isNil (r.get "page_id") = true →
        (requiredFields r).issues
          = r.issues ++ [⟨"page_id", "Field is required.", .error⟩]
        ∧ (requiredFields r).fields = r.fields)
    ∧ (isNil (r.get "page_id") = false → requiredFields r = r) := by
  constructor
  · intro h
    rw [requiredFields, if_pos h]
    exact ⟨rfl, rfl⟩
  · intro h
    rw [requiredFields, if_neg (by simp [h])]

/-- C9, witness: both clauses at concrete records. -/
theorem requiredFields_page_id_witness :
    (requiredFields recNilPage).issues
        = recNilPage.issues ++ [⟨"page_id", "Field is required.", .error⟩]
    ∧ requiredFields recSomePage = recSomePage :=
  ⟨((requiredFields_page_id recNilPage).1 (by decide)).1,
    (requiredFields_page_id recSomePage).2 (by decide)⟩

/-- C10: every failure produced by a single validator combinator carries
exactly one issue, with the combinator's fixed severity — warn for
max-length and regex-match, error for whole-number, range-inclusive,
positive and upc-or-ean — so a combinator's Fail is never empty. -/
theorem validators_fail_with_one_issue :
    (∀ (len : ℕ) (v : String), failsSingleton .warn (validateMaxLength len v))
    ∧ (∀ v : ℚ, failsSingleton .error (validateWholeNumber v))
    ∧ (∀ lo hi v : ℚ, failsSingleton .error (validateRangeInclusive lo hi v))
    ∧ (∀ (σ : Type) (test : String → σ → Bool × σ) (v : String) (st : σ),
        failsSingleton .warn (validateRegex test v st).1)
    ∧ (∀ v : ℚ, failsSingleton .error (validatePositive v))
    ∧ (∀ v : String, failsSingleton .error (validateUpcOrEan v)) := by
  refine ⟨?_, ?_, ?_, ?_, ?_, ?_⟩
  · intro len v
    rw [validateMaxLength]
    split
    · trivial
    · exact ⟨_, rfl, rfl⟩
  · intro v
    rw [validateWholeNumber]
    split
    · trivial
    · exact ⟨_, rfl, rfl⟩
  · intro lo hi v
    rw [validateRangeInclusive]
    split
    · trivial
    · exact ⟨_, rfl, rfl⟩
  · intro σ test v st
    simp only [validateRegex]
    split
    · trivial
    · exact ⟨_, rfl, rfl⟩
  · intro v
    rw [validatePositive]
    split
    · trivial
    · exact ⟨_, rfl, rfl⟩
  · intro v
    rw [validateUpcOrEan]
    split
    · rcases upcChecksumStep_shape (if v.length = 12 then "0" ++ v else v)
        with h | h <;> rw [h]
      · trivial
      · exact ⟨_, rfl, rfl⟩
    · exact ⟨_, rfl, rfl⟩
